import Mathlib

/-!
Verification of the `wyrm/types.py` data types: the `Data` labeled-tensor
container and the numpy-backed `RingBuffer`.

The embedding is a direct shallow translation of the source:
* numpy arrays are modelled by their dtype tag, shape and row-major contents;
  `RingBuffer` batches are modelled record-wise (leading axis explicit).
* `np.empty` yields uninitialized storage, modelled as `none` cells with the
  numpy default dtype `float64`.
* numpy slice assignment `target[a:b] = value` succeeds iff the value's shape
  broadcasts to the target slice's shape, and raises `ValueError` otherwise;
  Python negative slice indices (`x[-n:]`) and slice clamping are modelled
  explicitly.
* a Python method that mutates `self` and may raise is modelled as a function
  returning the post-call state together with a `raised` flag, since in Python
  mutations performed before the raising statement persist.
-/

namespace Wyrm

/-- Element dtype of a numpy array; `np.empty` defaults to `float64`. -/
inductive DType where
  | float64
  | int64
deriving DecidableEq

/-- Row-major contents of one record (one slice along the leading axis). -/
abbrev Flat := List Int

/-- Python `x[-n:]` on a list: the last `n` elements, the whole list for
`n = 0` (since `-0 = 0`) or when `n` exceeds the length. -/
def pyTail (l : List α) (n : Nat) : List α :=
  if n = 0 then l else l.drop (l.length - n)

/-- Start index of the Python slice `x[-n:]` on a list of length `L`. -/
def negStart (L n : Nat) : Nat :=
  if n = 0 then 0 else L - n

/-- The last `n` elements of a list (`l.drop (l.length - n)`). -/
def lastN (n : Nat) (l : List α) : List α :=
  l.drop (l.length - n)

/-- Split a flat list into `k` consecutive chunks of size `sz` each. -/
def chunkN : Nat → Nat → List Int → List (List Int)
  | 0, _, _ => []
  | k + 1, sz, l => l.take sz :: chunkN k sz (l.drop sz)

/-- Align a value shape to a target rank for numpy assignment broadcasting:
pad with leading `1`s when the value has fewer dims; strip leading `1`s when
it has more; fail when a stripped leading dim is not `1`. -/
def alignShape : List Nat → Nat → Option (List Nat)
  | [], n => some (List.replicate n 1)
  | d :: v, n =>
    if (d :: v).length ≤ n then some (List.replicate (n - (d :: v).length) 1 ++ d :: v)
    else if d = 1 then alignShape v n
    else none

/-- Aligned dimensions broadcast when each value dim equals the target dim
or is `1`. -/
def dimsBcast (v t : List Nat) : Bool :=
  (v.zip t).all (fun p => decide (p.1 = p.2) || decide (p.1 = 1))

/-- numpy: an array of shape `vshape` can be assigned into a target of shape
`tshape` (the value broadcasts to the target). -/
def broadcastsTo (vshape tshape : List Nat) : Bool :=
  match alignShape vshape tshape.length with
  | none => false
  | some v => dimsBcast v tshape

/-- Materialize the row-major data of `np.broadcast_to(value, tshape)`, where
`vshape` is the value's shape already aligned to the rank of `tshape`. -/
def bcastFlat : List Nat → List Nat → List Int → List Int
  | [], [], flat => flat
  | v :: vs, t :: ts, flat =>
    if v = 1 then List.flatten (List.replicate t (bcastFlat vs ts flat))
    else List.flatten ((chunkN v vs.prod flat).map (bcastFlat vs ts))
  | _, _, flat => flat

/-- A batch passed to `RingBuffer.append`: a numpy array viewed as a list of
records along its leading axis, with trailing record shape `rshape`. -/
structure Batch where
  dtype : DType
  rshape : List Nat
  recs : List Flat
deriving DecidableEq

/-- The ring buffer's backing store `self.data`: an array of `length` record
cells; a `none` cell is an uninitialized `np.empty` slot. -/
structure Store where
  dtype : DType
  rshape : List Nat
  cells : List (Option Flat)
deriving DecidableEq

/-- State of a `RingBuffer` object. -/
structure RingBuffer where
  length : Nat
  data : Option Store
  full : Bool
  idx : Nat
deriving DecidableEq

/-- `RingBuffer.__init__`: no storage, not full, write index 0. -/
def RingBuffer.init (length : Nat) : RingBuffer :=
  ⟨length, none, false, 0⟩

/-- numpy slice assignment `st.cells[start:stop] = v` (with Python slice
clamping): `some` updated store on success, `none` when the value's shape
does not broadcast to the target slice's shape (`ValueError`). Values are
cast to the store's dtype (exact for the integer contents modelled here). -/
def sliceAssign (st : Store) (start stop : Nat) (v : Batch) : Option Store :=
  let s := min start st.cells.length
  let e := min stop st.cells.length
  let tlen := e - s
  let vshape := v.recs.length :: v.rshape
  if vshape = tlen :: st.rshape then
    some ⟨st.dtype, st.rshape, st.cells.take s ++ v.recs.map some ++ st.cells.drop e⟩
  else if broadcastsTo vshape (tlen :: st.rshape) then
    match alignShape vshape (tlen :: st.rshape).length with
    | some v' =>
      some ⟨st.dtype, st.rshape,
        st.cells.take s ++
          (chunkN tlen st.rshape.prod (bcastFlat v' (tlen :: st.rshape) v.recs.flatten)).map some ++
          st.cells.drop e⟩
    | none => none
  else none

/-- Result of `RingBuffer.append`: the post-call object state and whether a
`ValueError` was raised (mutations made before the raise persist). -/
structure AppendResult where
  rb : RingBuffer
  raised : Bool
deriving DecidableEq

/-- Body of `RingBuffer.append` after the empty-batch return, the lazy
allocation of `self.data` and the oversize truncation: `st0` is the (now
allocated) store and `d` the (possibly truncated) incoming batch. -/
def appendWith (rb : RingBuffer) (st0 : Store) (d : Batch) : AppendResult :=
  if rb.idx + d.recs.length < rb.length then
    match sliceAssign st0 rb.idx (rb.idx + d.recs.length) d with
    | some st' => ⟨⟨rb.length, some st', rb.full, rb.idx + d.recs.length⟩, false⟩
    | none => ⟨⟨rb.length, some st0, rb.full, rb.idx⟩, true⟩
  else
    -- here `l1 = self.length - self.idx` and `l2 = len(data) - l1`, inlined:
    -- `self.full = True` happens before the two writes, so a raising write
    -- leaves `full` already set
    match sliceAssign st0 (negStart st0.cells.length (rb.length - rb.idx)) st0.cells.length
        ⟨d.dtype, d.rshape, d.recs.take (rb.length - rb.idx)⟩ with
    | none => ⟨⟨rb.length, some st0, true, rb.idx⟩, true⟩
    | some st1 =>
      match sliceAssign st1 0 (d.recs.length - (rb.length - rb.idx))
          ⟨d.dtype, d.rshape, d.recs.drop (rb.length - rb.idx)⟩ with
      | none => ⟨⟨rb.length, some st1, true, rb.idx⟩, true⟩
      | some st2 =>
        ⟨⟨rb.length, some st2, true, d.recs.length - (rb.length - rb.idx)⟩, false⟩

/-- Lazy allocation in `RingBuffer.append`: on the first non-empty append,
`self.data = np.empty(buffershape)` with `buffershape = [length] +
data.shape[1:]` and the numpy default dtype `float64`; otherwise the
existing store is kept. -/
def allocStore (rb : RingBuffer) (a : Batch) : Store :=
  match rb.data with
  | none => ⟨DType.float64, a.rshape, List.replicate rb.length none⟩
  | some st => st

/-- Oversize truncation in `RingBuffer.append`:
`if len(data) > self.length: data = data[-self.length:]`. -/
def truncBatch (rb : RingBuffer) (a : Batch) : Batch :=
  if a.recs.length > rb.length then ⟨a.dtype, a.rshape, pyTail a.recs rb.length⟩ else a

/-- `RingBuffer.append`: empty batches return immediately; the first
non-empty batch allocates the backing store; a batch longer than the
capacity is truncated to `data[-self.length:]`; then the no-wrap
(`idx + len(data) < length`) or wrap branch writes the records. In the wrap
branch `self.full = True` is executed before the two slice assignments. -/
def RingBuffer.append (rb : RingBuffer) (a : Batch) : AppendResult :=
  if a.recs.length = 0 then ⟨rb, false⟩
  else
    appendWith ⟨rb.length, some (allocStore rb a), rb.full, rb.idx⟩
      (allocStore rb a) (truncBatch rb a)

/-- Array returned by `RingBuffer.get` (a fresh array, never aliasing the
store). -/
structure GotArr where
  dtype : DType
  rshape : List Nat
  recs : List (Option Flat)
deriving DecidableEq

/-- `RingBuffer.get`: `np.array([])` when never appended to; the rotation
`concatenate([data[idx:], data[:idx]])` when full; a copy of `data[:idx]`
otherwise. -/
def RingBuffer.get (rb : RingBuffer) : GotArr :=
  match rb.data with
  | none => ⟨DType.float64, [], []⟩
  | some st =>
    if rb.full then ⟨st.dtype, st.rshape, st.cells.drop rb.idx ++ st.cells.take rb.idx⟩
    else ⟨st.dtype, st.rshape, st.cells.take rb.idx⟩

/-- Run a sequence of appends against a freshly constructed buffer,
discarding raised errors' flags (states persist, as in Python). -/
def runAppends (L : Nat) (bs : List Batch) : RingBuffer :=
  bs.foldl (fun rb b => (rb.append b).rb) (RingBuffer.init L)

/-- Concatenated history of all records passed to `append`. -/
def histOf (bs : List Batch) : List Flat :=
  (bs.map Batch.recs).flatten

/-- An element of a `Data` array or axis: an ordinary (exactly representable)
numeric value, or the floating-point `NaN`. `NaN` matters because numpy's
elementwise `==` — which `Data.__eq__` relies on — makes `NaN` compare
unequal to everything, itself included. -/
inductive Val where
  | num (n : Int)
  | nan
deriving DecidableEq

/-- numpy scalar equality `==`: two ordinary numbers compare by value; any
comparison involving `NaN` is `False`, including `NaN == NaN`. -/
def valEq : Val → Val → Bool
  | Val.num x, Val.num y => decide (x = y)
  | _, _ => false

/-- A general numpy array (dtype tag, shape, row-major contents), used for
the `.data` attribute of a `Data` object. -/
structure NDArr where
  dtype : DType
  shape : List Nat
  flat : List Val
deriving DecidableEq

/-- A `Data` object: the four documented attributes plus the names of any
further attributes a caller has attached to the instance (Python objects
carry them in `__dict__`; `__eq__` looks at their names only). Axis label
values are modelled as `Val` (numbers or `NaN`); only their count and
numpy-`==` comparison are ever inspected. -/
structure DataObj where
  data : NDArr
  axes : List (List Val)
  names : List String
  units : List String
  extra : List String
deriving DecidableEq

/-- `Data.__init__`: asserts
`data.ndim == len(axes) == len(names) == len(units)`, then checks
`data.shape[i] == len(axes[i])` for every `i`; `none` models the raised
`AssertionError`. On success the axes are stored as independent
`np.array` copies of the inputs. -/
def mkData (d : NDArr) (axes : List (List Val)) (names units : List String) :
    Option DataObj :=
  if d.shape.length = axes.length ∧ axes.length = names.length ∧
      names.length = units.length then
    if (d.shape.zip axes).all (fun p => decide (p.1 = p.2.length)) then
      some ⟨d, axes, names, units, []⟩
    else none
  else none

/-- Insert a string into a sorted list (helper for Python `sorted`). -/
def insertSorted (s : String) : List String → List String
  | [] => [s]
  | x :: xs => if s < x then s :: x :: xs else x :: insertSorted s xs

/-- Python `sorted` on a list of strings (insertion sort). -/
def sortStrings : List String → List String
  | [] => []
  | x :: xs => insertSorted x (sortStrings xs)

/-- Python `sorted(obj.__dict__.keys())` for a `Data` object. -/
def sortedKeys (o : DataObj) : List String :=
  sortStrings ("data" :: "axes" :: "names" :: "units" :: o.extra)

/-- `np.array_equal`: same shape and elementwise `==` on the contents
(dtype-insensitive); a `NaN` entry anywhere makes the result `False`, even
when both operands are the same array. -/
def npArrayEqual (x y : NDArr) : Bool :=
  decide (x.shape = y.shape) && (x.flat.zip y.flat).all (fun p => valEq p.1 p.2)

/-- numpy `(x == y).all()` on two 1-d arrays: elementwise `==` (so `NaN`
entries yield `False`) with length-1 broadcasting; `none` when the shapes do
not broadcast (on python-2 era numpy the comparison degrades to a scalar and
`.all()` then raises). -/
def axElemEqAll (x y : List Val) : Option Bool :=
  if x.length = y.length then some ((x.zip y).all (fun p => valEq p.1 p.2))
  else if x.length = 1 then some (y.all (fun v => valEq v (x.headD Val.nan)))
  else if y.length = 1 then some (x.all (fun v => valEq v (y.headD Val.nan)))
  else none

/-- The list comprehension
`[self.axes[i].shape == other.axes[i].shape for i in range(len(self.axes))]`
followed by `all(...)`: indexing `other.axes[i]` raises (`none`) when `other`
has fewer axes, and the whole list is built before `all` runs, so a later
index error wins over an earlier `False`. -/
def shapesOk : List (List Val) → List (List Val) → Option Bool
  | [], _ => some true
  | _ :: _, [] => none
  | x :: xs, y :: ys =>
    match shapesOk xs ys with
    | none => none
    | some rest => some (decide (x.length = y.length) && rest)

/-- The list comprehension
`[(self.axes[i] == other.axes[i]).all() for i in range(len(self.axes))]`
followed by `all(...)`; an element comparison that raises makes the whole
expression raise (`none`). -/
def valsOk : List (List Val) → List (List Val) → Option Bool
  | [], _ => some true
  | _ :: _, [] => none
  | x :: xs, y :: ys =>
    match axElemEqAll x y, valsOk xs ys with
    | some b, some rest => some (b && rest)
    | _, _ => none

/-- Sequencing of the `and`-chain in `Data.__eq__`: short-circuits on a
`False` condition, propagates a raised exception (`none`). -/
def optAnd (c : Option Bool) (rest : Unit → Option Bool) : Option Bool :=
  match c with
  | none => none
  | some false => some false
  | some true => rest ()

/-- `Data.__eq__`: the ordered, short-circuiting conjunction of the key-set
check, `np.array_equal` on `.data`, the axes count, axes shapes, axes values,
`.names` and `.units`; `none` models an exception escaping `__eq__`. -/
def dataEq (a b : DataObj) : Option Bool :=
  optAnd (some (decide (sortedKeys a = sortedKeys b))) (fun _ =>
  optAnd (some (npArrayEqual a.data b.data)) (fun _ =>
  optAnd (some (decide (a.axes.length = b.axes.length))) (fun _ =>
  optAnd (shapesOk a.axes b.axes) (fun _ =>
  optAnd (valsOk a.axes b.axes) (fun _ =>
  optAnd (some (decide (a.names = b.names))) (fun _ =>
  some (decide (a.units = b.units))))))))

/-- The keyword overrides accepted by `Data.copy` for the four declared
attributes. -/
structure Overrides where
  data : Option NDArr
  axes : Option (List (List Val))
  names : Option (List String)
  units : Option (List String)
deriving DecidableEq

/-- An empty `kwargs` dictionary. -/
def noOverrides : Overrides := ⟨none, none, none, none⟩

/-- Overrides carrying only `names=ns`. -/
def onlyNames (ns : List String) : Overrides := ⟨none, none, some ns, none⟩

/-- `Data.copy`: shallow-copy `self`, `setattr` each override, then deep-copy
the result. In this value-level model a deep copy is the identity; the deep
copy in the source is what guarantees that the returned object shares no
storage with `self` or with the override values. -/
def DataObj.copy (o : DataObj) (kw : Overrides) : DataObj :=
  { data := kw.data.getD o.data
    axes := kw.axes.getD o.axes
    names := kw.names.getD o.names
    units := kw.units.getD o.units
    extra := o.extra }

/-- The documented `Data` invariant (§3 of the spec): matching dimension
counts and axis lengths. -/
def DataWF (o : DataObj) : Prop :=
  o.data.shape.length = o.axes.length ∧ o.axes.length = o.names.length ∧
  o.names.length = o.units.length ∧
  ∀ i, i < o.data.shape.length → (o.axes.getD i []).length = o.data.shape.getD i 0

/-! ## Basic lemmas about the append machinery -/

theorem sliceAssign_exact (st : Store) (s e : Nat) (v : Batch)
    (hs : s ≤ st.cells.length) (he : e ≤ st.cells.length)
    (hsh : v.rshape = st.rshape) (hl : v.recs.length = e - s) :
    sliceAssign st s e v =
      some ⟨st.dtype, st.rshape, st.cells.take s ++ v.recs.map some ++ st.cells.drop e⟩ := by
  unfold sliceAssign
  simp only [min_eq_left hs, min_eq_left he, hl, hsh, if_pos rfl, if_true]

theorem sliceAssign_some_dtype_rshape (st : Store) (s e : Nat) (v : Batch) (st' : Store)
    (h : sliceAssign st s e v = some st') :
    st'.dtype = st.dtype ∧ st'.rshape = st.rshape := by
  simp only [sliceAssign] at h
  split at h
  · exact ⟨by injection h with h'; rw [← h'], by injection h with h'; rw [← h']⟩
  · split at h
    · split at h
      · exact ⟨by injection h with h'; rw [← h'], by injection h with h'; rw [← h']⟩
      · exact absurd h (by simp)
    · exact absurd h (by simp)

theorem truncBatch_rshape (rb : RingBuffer) (a : Batch) :
    (truncBatch rb a).rshape = a.rshape := by
  unfold truncBatch; split <;> rfl

theorem truncBatch_dtype (rb : RingBuffer) (a : Batch) :
    (truncBatch rb a).dtype = a.dtype := by
  unfold truncBatch; split <;> rfl

theorem truncBatch_recs (rb : RingBuffer) (a : Batch) (h : 0 < rb.length) :
    (truncBatch rb a).recs = lastN (min a.recs.length rb.length) a.recs := by
  unfold truncBatch
  split
  · next hgt =>
    simp only [pyTail, lastN, if_neg (by omega : ¬ rb.length = 0)]
    congr 1
    omega
  · next hle =>
    simp only [lastN]
    rw [min_eq_left (by omega)]
    simp

theorem truncBatch_length (rb : RingBuffer) (a : Batch) (h : 0 < rb.length) :
    (truncBatch rb a).recs.length = min a.recs.length rb.length := by
  rw [truncBatch_recs rb a h]
  simp only [lastN, List.length_drop]
  omega

theorem allocStore_none (rb : RingBuffer) (a : Batch) (h : rb.data = none) :
    allocStore rb a = ⟨DType.float64, a.rshape, List.replicate rb.length none⟩ := by
  unfold allocStore; rw [h]

theorem allocStore_some (rb : RingBuffer) (a : Batch) (st : Store) (h : rb.data = some st) :
    allocStore rb a = st := by
  unfold allocStore; rw [h]

theorem appendWith_nowrap (rb : RingBuffer) (st : Store) (d : Batch)
    (hlen : st.cells.length = rb.length) (hsh : d.rshape = st.rshape)
    (hlt : rb.idx + d.recs.length < rb.length) :
    appendWith rb st d =
      ⟨⟨rb.length,
        some ⟨st.dtype, st.rshape,
          st.cells.take rb.idx ++ d.recs.map some ++ st.cells.drop (rb.idx + d.recs.length)⟩,
        rb.full, rb.idx + d.recs.length⟩, false⟩ := by
  unfold appendWith
  rw [if_pos hlt,
    sliceAssign_exact st rb.idx (rb.idx + d.recs.length) d (by omega) (by omega) hsh (by omega)]

theorem appendWith_wrap (rb : RingBuffer) (st : Store) (d : Batch)
    (hlen : st.cells.length = rb.length) (hsh : d.rshape = st.rshape)
    (hidx : rb.idx < rb.length) (hle : d.recs.length ≤ rb.length)
    (hge : rb.length ≤ rb.idx + d.recs.length) :
    appendWith rb st d =
      ⟨⟨rb.length,
        some ⟨st.dtype, st.rshape,
          (d.recs.drop (rb.length - rb.idx)).map some ++
            (st.cells.take rb.idx ++ (d.recs.take (rb.length - rb.idx)).map some).drop
              (d.recs.length - (rb.length - rb.idx))⟩,
        true, d.recs.length - (rb.length - rb.idx)⟩, false⟩ := by
  simp only [appendWith]
  rw [if_neg (by omega)]
  have hns : negStart st.cells.length (rb.length - rb.idx) = rb.idx := by
    unfold negStart
    rw [if_neg (by omega)]
    omega
  rw [hns,
    sliceAssign_exact st rb.idx st.cells.length ⟨d.dtype, d.rshape, d.recs.take (rb.length - rb.idx)⟩
      (by omega) (by omega) hsh (by simp [List.length_take]; omega)]
  simp only [List.drop_length, List.append_nil]
  rw [sliceAssign_exact
      ⟨st.dtype, st.rshape, st.cells.take rb.idx ++ (d.recs.take (rb.length - rb.idx)).map some⟩
      0 (d.recs.length - (rb.length - rb.idx)) ⟨d.dtype, d.rshape, d.recs.drop (rb.length - rb.idx)⟩
      (by omega)
      (by simp only [List.length_append, List.length_take, List.length_map]; omega)
      hsh (by simp [List.length_drop])]
  simp

theorem appendWith_store (rb : RingBuffer) (st0 : Store) (d : Batch) :
    ∃ st', (appendWith rb st0 d).rb.data = some st' ∧
      st'.dtype = st0.dtype ∧ st'.rshape = st0.rshape := by
  unfold appendWith
  split
  · split
    · next st' hsa =>
      obtain ⟨h1, h2⟩ := sliceAssign_some_dtype_rshape _ _ _ _ _ hsa
      exact ⟨st', rfl, h1, h2⟩
    · exact ⟨st0, rfl, rfl, rfl⟩
  · split
    · exact ⟨st0, rfl, rfl, rfl⟩
    · next st1 hsa =>
      obtain ⟨h1, h2⟩ := sliceAssign_some_dtype_rshape _ _ _ _ _ hsa
      split
      · exact ⟨st1, rfl, h1, h2⟩
      · next st2 hsb =>
        obtain ⟨h3, h4⟩ := sliceAssign_some_dtype_rshape _ _ _ _ _ hsb
        exact ⟨st2, rfl, h3.trans h1, h4.trans h2⟩

theorem get_dtype_of_data (rb : RingBuffer) (st : Store) (h : rb.data = some st) :
    rb.get.dtype = st.dtype := by
  unfold RingBuffer.get
  rw [h]
  cases hf : rb.full <;> simp [hf]

theorem truncBatch_of_le (rb : RingBuffer) (a : Batch) (h : a.recs.length ≤ rb.length) :
    truncBatch rb a = a := by
  unfold truncBatch
  rw [if_neg (by omega)]

theorem alignShape_self (s : List Nat) : alignShape s s.length = some s := by
  cases s with
  | nil => rfl
  | cons d v =>
    unfold alignShape
    rw [if_pos (le_refl _)]
    simp

theorem dimsBcast_self (s : List Nat) : dimsBcast s s = true := by
  induction s with
  | nil => rfl
  | cons d v ih =>
    simp only [dimsBcast, List.zip_cons_cons, List.all_cons, Bool.and_eq_true] at *
    exact ⟨by simp, ih⟩

theorem broadcastsTo_self (s : List Nat) : broadcastsTo s s = true := by
  unfold broadcastsTo
  rw [alignShape_self]
  exact dimsBcast_self s

theorem sliceAssign_none (st : Store) (s e : Nat) (v : Batch)
    (hs : s ≤ st.cells.length) (he : e ≤ st.cells.length)
    (hbc : broadcastsTo (v.recs.length :: v.rshape) ((e - s) :: st.rshape) = false) :
    sliceAssign st s e v = none := by
  unfold sliceAssign
  simp only [min_eq_left hs, min_eq_left he]
  have hne : ¬ (v.recs.length :: v.rshape = (e - s) :: st.rshape) := by
    intro hcontra
    rw [hcontra, broadcastsTo_self] at hbc
    exact Bool.noConfusion hbc
  rw [if_neg hne, if_neg (by simp [hbc])]

/-! ## The claims -/

/-- C10: the backing store is allocated by `np.empty` with the default
floating-point dtype regardless of the dtype of the first appended batch, so
the array returned by `get()` has dtype `float64` even when the appended
batch had dtype `int64`. -/
theorem c10_store_dtype_float64 (L : Nat) (a : Batch) (h : a.recs ≠ []) :
    ((RingBuffer.init L).append a).rb.data.map Store.dtype = some DType.float64 ∧
    ((RingBuffer.init L).append a).rb.get.dtype = DType.float64 := by
  have hne : ¬ a.recs.length = 0 := by simpa using h
  unfold RingBuffer.append
  rw [if_neg hne, allocStore_none _ a rfl]
  obtain ⟨st', h1, h2, _⟩ := appendWith_store
    ⟨(RingBuffer.init L).length, some ⟨DType.float64, a.rshape, List.replicate (RingBuffer.init L).length none⟩,
      (RingBuffer.init L).full, (RingBuffer.init L).idx⟩
    ⟨DType.float64, a.rshape, List.replicate (RingBuffer.init L).length none⟩
    (truncBatch (RingBuffer.init L) a)
  rw [h1]
  exact ⟨by simp [h2], by rw [get_dtype_of_data _ st' h1]; exact h2⟩

/-- C10 witness: appending the integer batch `[1, 2, 3]` to a fresh buffer of
capacity 5 yields a `float64` store and a `float64` result from `get()`,
not an `int64` one. -/
theorem c10_store_dtype_float64_witness :
    ((⟨DType.int64, [], [[1], [2], [3]]⟩ : Batch).recs ≠ [] ∧
      (((RingBuffer.init 5).append ⟨DType.int64, [], [[1], [2], [3]]⟩).rb.data.map Store.dtype =
          some DType.float64 ∧
        ((RingBuffer.init 5).append ⟨DType.int64, [], [[1], [2], [3]]⟩).rb.get.dtype =
          DType.float64)) ∧
    DType.int64 ≠ DType.float64 :=
  ⟨⟨by decide, c10_store_dtype_float64 5 ⟨DType.int64, [], [[1], [2], [3]]⟩ (by decide)⟩, by decide⟩

/-- C7: `copy` with a `names` override returns an object whose `names` is the
override value and whose other attributes are those of the source, which is
itself left unchanged (the model is value-level; the deep copy performed by
the source is what makes the returned object independent of `self` and of the
override values). -/
theorem c7_copy_override_names (d : DataObj) (ns : List String) :
    (d.copy (onlyNames ns)).names = ns ∧
    (d.copy (onlyNames ns)).data = d.data ∧
    (d.copy (onlyNames ns)).axes = d.axes ∧
    (d.copy (onlyNames ns)).units = d.units ∧
    (d.copy (onlyNames ns)).extra = d.extra :=
  ⟨rfl, rfl, rfl, rfl, rfl⟩

/-- C2 counterexample: the claim fails twice on concrete runs. (1) On a
buffer whose record shape is `[3]`, appending a batch of trailing shape `[1]`
(a mismatch) raises nothing at all, because numpy broadcasts the assignment.
(2) On a partially filled buffer of capacity 2 with scalar records, appending
two records of shape `[3]` takes the wrap path: the call raises, but
`full` has already been flipped from `false` to `true`, so the state observed
via `get()` differs after the failed call. -/
theorem c2_counterexample :
    (((runAppends 5 [⟨DType.int64, [3], [[1, 2, 3]]⟩]).data.map Store.rshape = some [3] ∧
        ([1] : List Nat) ≠ [3]) ∧
      ((runAppends 5 [⟨DType.int64, [3], [[1, 2, 3]]⟩]).append
          ⟨DType.int64, [1], [[9]]⟩).raised = false) ∧
    (((runAppends 2 [⟨DType.int64, [], [[5]]⟩]).data.map Store.rshape = some [] ∧
        ([3] : List Nat) ≠ []) ∧
      ((runAppends 2 [⟨DType.int64, [], [[5]]⟩]).append
          ⟨DType.int64, [3], [[1, 2, 3], [4, 5, 6]]⟩).raised = true ∧
      ((runAppends 2 [⟨DType.int64, [], [[5]]⟩]).append
          ⟨DType.int64, [3], [[1, 2, 3], [4, 5, 6]]⟩).rb.full = true ∧
      (runAppends 2 [⟨DType.int64, [], [[5]]⟩]).full = false ∧
      ((runAppends 2 [⟨DType.int64, [], [[5]]⟩]).append
          ⟨DType.int64, [3], [[1, 2, 3], [4, 5, 6]]⟩).rb.get ≠
        (runAppends 2 [⟨DType.int64, [], [[5]]⟩]).get) := by
  decide

/-- C9: for a buffer of positive capacity the write index starts at 0,
strictly below the capacity, and stays strictly below it across every append
(empty, oversized, exact-fit, wrapping, or raising); consequently the wrap
branch's tail length `l1 = length - idx` is always at least 1, so the
negative slice `data[-l1:]` never silently denotes the whole store. -/
theorem c9_idx_invariant :
    (∀ L : Nat, 0 < L →
      (RingBuffer.init L).idx = 0 ∧ (RingBuffer.init L).idx < (RingBuffer.init L).length) ∧
    (∀ (rb : RingBuffer) (a : Batch), rb.idx < rb.length →
      (rb.append a).rb.length = rb.length ∧ (rb.append a).rb.idx < rb.length ∧
        1 ≤ rb.length - rb.idx) := by
  constructor
  · intro L hL
    exact ⟨rfl, hL⟩
  · intro rb a hidx
    have h0 : 0 < rb.length := by omega
    have hdl : (truncBatch rb a).recs.length ≤ rb.length := by
      rw [truncBatch_length rb a h0]; omega
    suffices h : (rb.append a).rb.length = rb.length ∧ (rb.append a).rb.idx < rb.length by
      exact ⟨h.1, h.2, by omega⟩
    unfold RingBuffer.append appendWith
    dsimp only
    split
    · exact ⟨rfl, hidx⟩
    · split
      · split
        · dsimp only; omega
        · dsimp only; omega
      · split
        · dsimp only; omega
        · split
          · dsimp only; omega
          · dsimp only; omega

/-- C9 witness: the invariant instantiated at a concrete buffer of capacity 3
holding one record, appended with a wrapping three-record batch. -/
theorem c9_idx_invariant_witness :
    ((RingBuffer.init 3).idx = 0 ∧ (RingBuffer.init 3).idx < (RingBuffer.init 3).length) ∧
    ((runAppends 3 [⟨DType.int64, [], [[1]]⟩]).append
        ⟨DType.int64, [], [[2], [3], [4]]⟩).rb.length =
      (runAppends 3 [⟨DType.int64, [], [[1]]⟩]).length ∧
    ((runAppends 3 [⟨DType.int64, [], [[1]]⟩]).append
        ⟨DType.int64, [], [[2], [3], [4]]⟩).rb.idx <
      (runAppends 3 [⟨DType.int64, [], [[1]]⟩]).length ∧
    1 ≤ (runAppends 3 [⟨DType.int64, [], [[1]]⟩]).length -
        (runAppends 3 [⟨DType.int64, [], [[1]]⟩]).idx :=
  ⟨c9_idx_invariant.1 3 (by decide),
    c9_idx_invariant.2 (runAppends 3 [⟨DType.int64, [], [[1]]⟩])
      ⟨DType.int64, [], [[2], [3], [4]]⟩ (by decide)⟩

/-- C4: a non-empty append whose post-truncation record count exactly fills
the remaining space (`idx + count = length`) is handled by the wrap branch
(the no-wrap branch requires strict `<`): it succeeds, sets `full`, and
leaves `idx = 0` so the next write starts at the head of the store. -/
theorem c4_exact_fit_wraps (rb : RingBuffer) (a : Batch) (st : Store)
    (hst : rb.data = some st) (hlen : st.cells.length = rb.length)
    (hsh : a.rshape = st.rshape) (hne : a.recs ≠ [])
    (hidx : rb.idx < rb.length)
    (hfit : rb.idx + min a.recs.length rb.length = rb.length) :
    (rb.append a).raised = false ∧ (rb.append a).rb.full = true ∧
      (rb.append a).rb.idx = 0 := by
  have h0 : 0 < rb.length := by omega
  have hne' : ¬ a.recs.length = 0 := by simpa using hne
  have htl : (truncBatch rb a).recs.length = min a.recs.length rb.length :=
    truncBatch_length rb a h0
  unfold RingBuffer.append
  rw [if_neg hne', allocStore_some rb a st hst]
  rw [appendWith_wrap ⟨rb.length, some st, rb.full, rb.idx⟩ st (truncBatch rb a)
      hlen (by rw [truncBatch_rshape]; exact hsh) hidx
      (show (truncBatch rb a).recs.length ≤ rb.length by omega)
      (show rb.length ≤ rb.idx + (truncBatch rb a).recs.length by omega)]
  refine ⟨rfl, rfl, ?_⟩
  show (truncBatch rb a).recs.length - (rb.length - rb.idx) = 0
  omega

/-- C4 witness: a buffer of capacity 4 holding one record, appended with
three records: `1 + 3 = 4` takes the wrap path and lands `idx` on 0. -/
theorem c4_exact_fit_wraps_witness :
    ((runAppends 4 [⟨DType.int64, [], [[9]]⟩]).append
        ⟨DType.int64, [], [[1], [2], [3]]⟩).raised = false ∧
    ((runAppends 4 [⟨DType.int64, [], [[9]]⟩]).append
        ⟨DType.int64, [], [[1], [2], [3]]⟩).rb.full = true ∧
    ((runAppends 4 [⟨DType.int64, [], [[9]]⟩]).append
        ⟨DType.int64, [], [[1], [2], [3]]⟩).rb.idx = 0 :=
  c4_exact_fit_wraps (runAppends 4 [⟨DType.int64, [], [[9]]⟩])
    ⟨DType.int64, [], [[1], [2], [3]]⟩
    ⟨DType.float64, [], [some [9], none, none, none]⟩
    (by decide) (by decide) (by decide) (by decide) (by decide) (by decide)

/-- C2 (amended): a mismatched append raises only when the batch's shape
fails to broadcast into the target slice, and the claimed no-partial-write
guarantee holds only on the no-wrap path. Precisely: (1) whenever `append`
raises, `idx` and `length` are unchanged, but `full` is either unchanged or
has been set to `true` (the wrap branch sets it before the failing write);
(2) on the no-wrap path a non-broadcastable batch raises and the whole state
is unchanged. -/
theorem c2_amended_raise_behavior :
    (∀ (rb : RingBuffer) (a : Batch), (rb.append a).raised = true →
      (rb.append a).rb.idx = rb.idx ∧ (rb.append a).rb.length = rb.length ∧
        ((rb.append a).rb.full = rb.full ∨ (rb.append a).rb.full = true)) ∧
    (∀ (rb : RingBuffer) (a : Batch) (st : Store),
      rb.data = some st → st.cells.length = rb.length →
      a.recs.length ≠ 0 → rb.idx + a.recs.length < rb.length →
      broadcastsTo (a.recs.length :: a.rshape) (a.recs.length :: st.rshape) = false →
      (rb.append a).raised = true ∧ (rb.append a).rb = rb) := by
  constructor
  · intro rb a
    unfold RingBuffer.append appendWith
    dsimp only
    split
    · intro h
      exact absurd h (by simp)
    · split
      · split
        · intro h
          exact absurd h (by simp)
        · intro _
          exact ⟨rfl, rfl, Or.inl rfl⟩
      · split
        · intro _
          exact ⟨rfl, rfl, Or.inr rfl⟩
        · split
          · intro _
            exact ⟨rfl, rfl, Or.inr rfl⟩
          · intro h
            exact absurd h (by simp)
  · intro rb a st hst hlen hne hlt hbc
    obtain ⟨L, dat, fl, ix⟩ := rb
    simp only at hst hlen hlt ⊢
    subst hst
    unfold RingBuffer.append
    rw [if_neg hne, allocStore_some _ a st rfl,
      truncBatch_of_le _ a (by simpa using by omega)]
    unfold appendWith
    dsimp only
    rw [if_pos hlt,
      sliceAssign_none st ix (ix + a.recs.length) a (by omega) (by omega)
        (by simpa using hbc)]
    exact ⟨rfl, rfl⟩

/-- C2 amended witness: a no-wrap mismatched append (scalar store, record
shape `[3]`) raises and leaves the state fully unchanged, and the general
raise conclusion instantiated on the wrap-path counterexample. -/
theorem c2_amended_raise_behavior_witness :
    (((runAppends 5 [⟨DType.int64, [], [[5]]⟩]).append
        ⟨DType.int64, [3], [[1, 2, 3]]⟩).raised = true ∧
      ((runAppends 5 [⟨DType.int64, [], [[5]]⟩]).append
          ⟨DType.int64, [3], [[1, 2, 3]]⟩).rb =
        runAppends 5 [⟨DType.int64, [], [[5]]⟩]) ∧
    (((runAppends 2 [⟨DType.int64, [], [[6]]⟩]).append
        ⟨DType.int64, [3], [[1, 2, 3], [4, 5, 6]]⟩).rb.idx =
      (runAppends 2 [⟨DType.int64, [], [[6]]⟩]).idx ∧
      ((runAppends 2 [⟨DType.int64, [], [[6]]⟩]).append
          ⟨DType.int64, [3], [[1, 2, 3], [4, 5, 6]]⟩).rb.length =
        (runAppends 2 [⟨DType.int64, [], [[6]]⟩]).length ∧
      (((runAppends 2 [⟨DType.int64, [], [[6]]⟩]).append
          ⟨DType.int64, [3], [[1, 2, 3], [4, 5, 6]]⟩).rb.full =
        (runAppends 2 [⟨DType.int64, [], [[6]]⟩]).full ∨
        ((runAppends 2 [⟨DType.int64, [], [[6]]⟩]).append
            ⟨DType.int64, [3], [[1, 2, 3], [4, 5, 6]]⟩).rb.full = true)) :=
  ⟨c2_amended_raise_behavior.2 (runAppends 5 [⟨DType.int64, [], [[5]]⟩])
      ⟨DType.int64, [3], [[1, 2, 3]]⟩ ⟨DType.float64, [], [some [5], none, none, none, none]⟩
      (by decide) (by decide) (by decide) (by decide) (by decide),
    c2_amended_raise_behavior.1 (runAppends 2 [⟨DType.int64, [], [[6]]⟩])
      ⟨DType.int64, [3], [[1, 2, 3], [4, 5, 6]]⟩ (by decide)⟩

/-! ## Lemmas about the Data container -/

theorem zipAll_len_iff (s : List Nat) (ax : List (List Val)) (h : s.length = ax.length) :
    ((s.zip ax).all (fun p => decide (p.1 = p.2.length)) = true ↔
      ∀ i, i < s.length → (ax.getD i []).length = s.getD i 0) := by
  induction s generalizing ax with
  | nil => simp
  | cons n s ih =>
    cases ax with
    | nil => simp at h
    | cons a ax =>
      simp only [List.zip_cons_cons, List.all_cons, Bool.and_eq_true, decide_eq_true_eq]
      rw [ih ax (by simpa using h)]
      constructor
      · rintro ⟨h0, hrest⟩ i hi
        cases i with
        | zero => simpa using h0.symm
        | succ j => simpa using hrest j (by simpa using hi)
      · intro hall
        constructor
        · have h0 := hall 0 (by simp)
          simp only [List.getD_cons_zero] at h0
          exact h0.symm
        · intro j hj
          simpa using hall (j + 1) (by simpa using hj)

theorem insertSorted_length (s : String) (l : List String) :
    (insertSorted s l).length = l.length + 1 := by
  induction l with
  | nil => rfl
  | cons x xs ih =>
    unfold insertSorted
    split
    · rfl
    · simp [ih]

theorem sortStrings_length (l : List String) : (sortStrings l).length = l.length := by
  induction l with
  | nil => rfl
  | cons x xs ih =>
    unfold sortStrings
    rw [insertSorted_length, ih]
    rfl

theorem sortedKeys_length (o : DataObj) : (sortedKeys o).length = o.extra.length + 4 := by
  unfold sortedKeys
  rw [sortStrings_length]
  simp

/-- No entry of the object's `data` array or of any of its axes is the
floating-point `NaN` (on which numpy's `==` is not reflexive). -/
def NoNaNData (o : DataObj) : Prop :=
  (∀ v ∈ o.data.flat, v ≠ Val.nan) ∧ ∀ ax ∈ o.axes, ∀ v ∈ ax, v ≠ Val.nan

theorem valEq_self (v : Val) (h : v ≠ Val.nan) : valEq v v = true := by
  cases v with
  | num x => simp [valEq]
  | nan => exact absurd rfl h

theorem zipAll_valEq_self (l : List Val) (h : ∀ v ∈ l, v ≠ Val.nan) :
    (l.zip l).all (fun p => valEq p.1 p.2) = true := by
  induction l with
  | nil => rfl
  | cons v vs ih =>
    simp only [List.zip_cons_cons, List.all_cons, Bool.and_eq_true]
    exact ⟨valEq_self v (h v (by simp)), ih (fun x hx => h x (by simp [hx]))⟩

theorem npArrayEqual_self (x : NDArr) (h : ∀ v ∈ x.flat, v ≠ Val.nan) :
    npArrayEqual x x = true := by
  unfold npArrayEqual
  rw [zipAll_valEq_self x.flat h]
  simp

theorem axElemEqAll_self (x : List Val) (h : ∀ v ∈ x, v ≠ Val.nan) :
    axElemEqAll x x = some true := by
  unfold axElemEqAll
  rw [if_pos rfl, zipAll_valEq_self x h]

theorem shapesOk_self (xs : List (List Val)) : shapesOk xs xs = some true := by
  induction xs with
  | nil => rfl
  | cons x xs ih =>
    unfold shapesOk
    rw [ih]
    simp

theorem valsOk_self (xs : List (List Val)) (h : ∀ ax ∈ xs, ∀ v ∈ ax, v ≠ Val.nan) :
    valsOk xs xs = some true := by
  induction xs with
  | nil => rfl
  | cons x xs ih =>
    unfold valsOk
    rw [ih (fun a ha => h a (by simp [ha])), axElemEqAll_self x (h x (by simp))]
    rfl

theorem dataEq_self (d : DataObj) (h : NoNaNData d) : dataEq d d = some true := by
  obtain ⟨h1, h2⟩ := h
  simp [dataEq, optAnd, npArrayEqual_self d.data h1, shapesOk_self, valsOk_self d.axes h2]

theorem shapesOk_isSome (xs ys : List (List Val)) (h : xs.length ≤ ys.length) :
    (shapesOk xs ys).isSome := by
  induction xs generalizing ys with
  | nil => simp [shapesOk]
  | cons x xs ih =>
    cases ys with
    | nil => simp at h
    | cons y ys =>
      unfold shapesOk
      cases hso : shapesOk xs ys with
      | none =>
        have hs := ih ys (by simpa using h)
        rw [hso] at hs
        simp at hs
      | some rest => simp

theorem valsOk_isSome_of_shapes (xs ys : List (List Val)) (h : shapesOk xs ys = some true) :
    (valsOk xs ys).isSome := by
  induction xs generalizing ys with
  | nil => simp [valsOk]
  | cons x xs ih =>
    cases ys with
    | nil => simp [shapesOk] at h
    | cons y ys =>
      unfold shapesOk at h
      cases hso : shapesOk xs ys with
      | none =>
        rw [hso] at h
        simp at h
      | some rest =>
        rw [hso] at h
        have hpair := Option.some.inj h
        have hx : x.length = y.length := by
          have := (Bool.and_eq_true _ _).mp hpair
          exact of_decide_eq_true this.1
        have hrest : rest = true := ((Bool.and_eq_true _ _).mp hpair).2
        unfold valsOk
        have hax : axElemEqAll x y = some ((x.zip y).all (fun p => valEq p.1 p.2)) := by
          unfold axElemEqAll
          rw [if_pos hx]
        rw [hax]
        have hvs := ih ys (by rw [hso, hrest])
        cases hvo : valsOk xs ys with
        | none =>
          rw [hvo] at hvs
          simp at hvs
        | some b => simp

theorem optAnd_isSome (c : Option Bool) (rest : Unit → Option Bool)
    (hc : c.isSome) (hrest : c = some true → (rest ()).isSome) : (optAnd c rest).isSome := by
  cases c with
  | none => simp at hc
  | some b =>
    cases b with
    | false => simp [optAnd]
    | true => simpa [optAnd] using hrest rfl

/-- C5: `Data` construction succeeds exactly when the dimension counts of
`data`, `axes`, `names`, `units` agree and every axis' length matches the
corresponding entry of `data.shape`; it raises otherwise, and on success the
stored object satisfies `len(axes[i]) == data.shape[i]` for every `i`. -/
theorem c5_data_init_validates (d : NDArr) (axes : List (List Val)) (names units : List String) :
    ((mkData d axes names units).isSome ↔
      (d.shape.length = axes.length ∧ axes.length = names.length ∧
        names.length = units.length ∧
        ∀ i, i < d.shape.length → (axes.getD i []).length = d.shape.getD i 0)) ∧
    (∀ o, mkData d axes names units = some o →
      o.data = d ∧ o.axes = axes ∧
      ∀ i, i < o.data.shape.length → (o.axes.getD i []).length = o.data.shape.getD i 0) := by
  constructor
  · unfold mkData
    by_cases h1 : d.shape.length = axes.length ∧ axes.length = names.length ∧
        names.length = units.length
    · rw [if_pos h1]
      by_cases h2 : (d.shape.zip axes).all (fun p => decide (p.1 = p.2.length)) = true
      · rw [if_pos h2]
        exact iff_of_true rfl ⟨h1.1, h1.2.1, h1.2.2, (zipAll_len_iff _ _ h1.1).mp h2⟩
      · rw [if_neg h2]
        exact iff_of_false (by simp) (fun hc => h2 ((zipAll_len_iff _ _ h1.1).mpr hc.2.2.2))
    · rw [if_neg h1]
      exact iff_of_false (by simp) (fun hc => h1 ⟨hc.1, hc.2.1, hc.2.2.1⟩)
  · intro o ho
    unfold mkData at ho
    split at ho
    · split at ho
      · next h1 h2 =>
        have hobj := Option.some.inj ho
        refine ⟨by rw [← hobj], by rw [← hobj], ?_⟩
        rw [← hobj]
        exact (zipAll_len_iff _ _ h1.1).mp h2
      · exact absurd ho (by simp)
    · exact absurd ho (by simp)

/-- C5 witness: a concrete valid 1-d construction succeeds with matching
axis lengths, instantiating the validation theorem. -/
theorem c5_data_init_validates_witness :
    (mkData ⟨DType.int64, [2], [Val.num 10, Val.num 20]⟩ [[Val.num 7, Val.num 8]]
      ["time"] ["ms"]).isSome :=
  (c5_data_init_validates ⟨DType.int64, [2], [Val.num 10, Val.num 20]⟩
    [[Val.num 7, Val.num 8]] ["time"] ["ms"]).1.mpr (by decide)

/-- C6 counterexample: a perfectly valid `Data` object whose array holds the
floating-point `NaN` (accepted by construction, satisfying the §3 invariant)
is not `__eq__`-equal to its own no-override copy, because `np.array_equal`
compares elementwise with `==` and `NaN == NaN` is `False`. -/
theorem c6_counterexample :
    DataWF ⟨⟨DType.float64, [1], [Val.nan]⟩, [[Val.num 0]], ["x"], ["u"], []⟩ ∧
    (mkData ⟨DType.float64, [1], [Val.nan]⟩ [[Val.num 0]] ["x"] ["u"]).isSome = true ∧
    dataEq
      ((⟨⟨DType.float64, [1], [Val.nan]⟩, [[Val.num 0]], ["x"], ["u"], []⟩ : DataObj).copy
        noOverrides)
      ⟨⟨DType.float64, [1], [Val.nan]⟩, [[Val.num 0]], ["x"], ["u"], []⟩ = some false := by
  refine ⟨⟨rfl, rfl, rfl, by decide⟩, by decide, ?_⟩
  have hcopy :
      (⟨⟨DType.float64, [1], [Val.nan]⟩, [[Val.num 0]], ["x"], ["u"], []⟩ : DataObj).copy
        noOverrides =
      ⟨⟨DType.float64, [1], [Val.nan]⟩, [[Val.num 0]], ["x"], ["u"], []⟩ := rfl
  rw [hcopy]
  unfold dataEq
  rw [decide_eq_true
    (rfl : sortedKeys ⟨⟨DType.float64, [1], [Val.nan]⟩, [[Val.num 0]], ["x"], ["u"], []⟩ =
      sortedKeys ⟨⟨DType.float64, [1], [Val.nan]⟩, [[Val.num 0]], ["x"], ["u"], []⟩)]
  rw [show npArrayEqual ⟨DType.float64, [1], [Val.nan]⟩ ⟨DType.float64, [1], [Val.nan]⟩ =
    false from by decide]
  rfl

/-- C6 (amended): `copy` with no overrides produces an object that `__eq__`
reports equal to the source for every valid `Data` object none of whose
array or axis entries is `NaN`; the deep copy itself cannot change any
compared attribute, and only numpy's non-reflexive `==` on `NaN` entries can
make the comparison fail. -/
theorem c6_copy_eq_self_noNaN (d : DataObj) (h : DataWF d) (hn : NoNaNData d) :
    dataEq (d.copy noOverrides) d = some true := by
  have hcopy : d.copy noOverrides = d := by
    cases d
    rfl
  rw [hcopy]
  exact dataEq_self d hn

/-- C6 witness: the amended copy-equality instantiated at a concrete valid
`NaN`-free `Data` object. -/
theorem c6_copy_eq_self_noNaN_witness :
    dataEq
      ((⟨⟨DType.float64, [2], [Val.num 1, Val.num 2]⟩, [[Val.num 10, Val.num 20]],
          ["time"], ["ms"], []⟩ : DataObj).copy noOverrides)
      ⟨⟨DType.float64, [2], [Val.num 1, Val.num 2]⟩, [[Val.num 10, Val.num 20]],
        ["time"], ["ms"], []⟩ = some true :=
  c6_copy_eq_self_noNaN
    ⟨⟨DType.float64, [2], [Val.num 1, Val.num 2]⟩, [[Val.num 10, Val.num 20]],
      ["time"], ["ms"], []⟩
    (by constructor <;> decide) (by constructor <;> decide)

/-- C8: `__eq__` is total on `Data` operands: the short-circuiting
conjunction never runs a fallible comparison unguarded, so the result is
always a boolean (`some`), and in particular differing attribute sets yield
`False` rather than an exception. -/
theorem c8_eq_total (a b : DataObj) :
    (dataEq a b).isSome = true ∧
    (sortedKeys a ≠ sortedKeys b → dataEq a b = some false) := by
  constructor
  · unfold dataEq
    refine optAnd_isSome _ _ (by simp) (fun _ => ?_)
    refine optAnd_isSome _ _ (by simp) (fun _ => ?_)
    refine optAnd_isSome _ _ (by simp) (fun h3 => ?_)
    have hlen : a.axes.length = b.axes.length := by
      have := Option.some.inj h3
      exact of_decide_eq_true this
    refine optAnd_isSome _ _ (shapesOk_isSome _ _ (le_of_eq hlen)) (fun h4 => ?_)
    refine optAnd_isSome _ _ (valsOk_isSome_of_shapes _ _ h4) (fun _ => ?_)
    exact optAnd_isSome _ _ (by simp) (fun _ => by simp)
  · intro hne
    unfold dataEq
    rw [decide_eq_false hne]
    rfl

/-- C8 witness: equality evaluated on two concrete objects with different
attribute sets is a boolean and is `False`. -/
theorem c8_eq_total_witness :
    (dataEq ⟨⟨DType.float64, [], [Val.num 0]⟩, [], [], [], ["markers"]⟩
        ⟨⟨DType.float64, [], [Val.num 0]⟩, [], [], [], []⟩).isSome = true ∧
    dataEq ⟨⟨DType.float64, [], [Val.num 0]⟩, [], [], [], ["markers"]⟩
        ⟨⟨DType.float64, [], [Val.num 0]⟩, [], [], [], []⟩ = some false :=
  ⟨(c8_eq_total ⟨⟨DType.float64, [], [Val.num 0]⟩, [], [], [], ["markers"]⟩
      ⟨⟨DType.float64, [], [Val.num 0]⟩, [], [], [], []⟩).1,
    (c8_eq_total ⟨⟨DType.float64, [], [Val.num 0]⟩, [], [], [], ["markers"]⟩
      ⟨⟨DType.float64, [], [Val.num 0]⟩, [], [], [], []⟩).2
      (fun h => by
        have hl := congrArg List.length h
        rw [sortedKeys_length, sortedKeys_length] at hl
        simp at hl)⟩

theorem lastN_length_of_le {α : Type} (n : Nat) (l : List α) (h : n ≤ l.length) :
    (lastN n l).length = n := by
  unfold lastN
  rw [List.length_drop]
  omega

/-- C3: appending a batch with more than `length` records keeps only the
most recent `length` records of the batch (the head of the batch is
dropped): the append succeeds, the buffer reports `full`, and `get()`
returns exactly the batch's last `length` records, in order. -/
theorem c3_oversized_append_keeps_tail (rb : RingBuffer) (a : Batch)
    (h0 : 0 < rb.length) (hidx : rb.idx < rb.length)
    (hsome : ∀ st, rb.data = some st →
      st.cells.length = rb.length ∧ st.rshape = a.rshape)
    (hgt : rb.length < a.recs.length) :
    (rb.append a).raised = false ∧ (rb.append a).rb.full = true ∧
      (rb.append a).rb.get.recs = (lastN rb.length a.recs).map some ∧
      (rb.append a).rb.get.recs.length = rb.length := by
  have hne' : ¬ a.recs.length = 0 := by omega
  have hstl : (allocStore rb a).cells.length = rb.length := by
    cases hdat : rb.data with
    | none => rw [allocStore_none rb a hdat]; simp
    | some st => rw [allocStore_some rb a st hdat]; exact (hsome st hdat).1
  have hstsh : (allocStore rb a).rshape = a.rshape := by
    cases hdat : rb.data with
    | none => rw [allocStore_none rb a hdat]
    | some st => rw [allocStore_some rb a st hdat]; exact (hsome st hdat).2
  have hdrecs : (truncBatch rb a).recs = lastN rb.length a.recs := by
    rw [truncBatch_recs rb a h0, min_eq_right (by omega)]
  have hdlen : (truncBatch rb a).recs.length = rb.length := by
    rw [hdrecs]; exact lastN_length_of_le _ _ (by omega)
  unfold RingBuffer.append
  rw [if_neg hne']
  rw [appendWith_wrap ⟨rb.length, some (allocStore rb a), rb.full, rb.idx⟩ (allocStore rb a)
      (truncBatch rb a) hstl (by rw [truncBatch_rshape]; exact hstsh.symm) hidx
      (by show (truncBatch rb a).recs.length ≤ rb.length; omega)
      (by show rb.length ≤ rb.idx + (truncBatch rb a).recs.length; omega)]
  refine ⟨rfl, rfl, ?_, ?_⟩
  all_goals {
    unfold RingBuffer.get
    dsimp only
    rw [if_pos rfl]
    rw [show (truncBatch rb a).recs.length - (rb.length - rb.idx) = rb.idx from by omega]
    have hA : (((truncBatch rb a).recs.drop (rb.length - rb.idx)).map some).length = rb.idx := by
      simp only [List.length_map, List.length_drop]
      omega
    have hX : ((allocStore rb a).cells.take rb.idx).length = rb.idx := by
      simp only [List.length_take]
      omega
    rw [List.drop_left' hA, List.take_left' hA, List.drop_left' hX,
      ← List.map_append, List.take_append_drop, hdrecs]
    try rw [List.length_map]
    try exact lastN_length_of_le _ _ (by omega)
  }

/-- C3 witness: on a fresh buffer of capacity 5, appending the six records
`[1, 2, 3, 4, 5, 6]` truncates to the most recent five: the append succeeds,
`full` becomes true, and `get()` returns exactly `[2, 3, 4, 5, 6]`. -/
theorem c3_oversized_append_keeps_tail_witness :
    (((RingBuffer.init 5).append
        ⟨DType.int64, [], [[1], [2], [3], [4], [5], [6]]⟩).raised = false ∧
      ((RingBuffer.init 5).append
          ⟨DType.int64, [], [[1], [2], [3], [4], [5], [6]]⟩).rb.full = true ∧
      ((RingBuffer.init 5).append
          ⟨DType.int64, [], [[1], [2], [3], [4], [5], [6]]⟩).rb.get.recs =
        (lastN 5 [[1], [2], [3], [4], [5], [6]]).map some ∧
      ((RingBuffer.init 5).append
          ⟨DType.int64, [], [[1], [2], [3], [4], [5], [6]]⟩).rb.get.recs.length = 5) ∧
    (lastN 5 [[1], [2], [3], [4], [5], [6]]).map some =
      [some [2], some [3], some [4], some [5], some [6]] :=
  ⟨c3_oversized_append_keeps_tail (RingBuffer.init 5)
      ⟨DType.int64, [], [[1], [2], [3], [4], [5], [6]]⟩
      (by decide) (by decide) (fun st h => Option.noConfusion h) (by decide),
    by decide⟩

/-- Invariant tying a `RingBuffer` state to the history `hist` of all
records ever passed to shape-consistent appends: before the first non-empty
append the buffer is pristine; afterwards, while not `full` the store's
prefix of length `idx` holds the whole history followed by uninitialized
slots, and once `full` the store rotated at `idx` holds exactly the last
`length` records of the history. -/
def RBStateOk (L : Nat) (rs : List Nat) (hist : List Flat) (rb : RingBuffer) : Prop :=
  rb.length = L ∧
  match rb.data with
  | none => hist = [] ∧ rb.full = false ∧ rb.idx = 0
  | some st =>
      st.rshape = rs ∧ st.cells.length = L ∧
      (if rb.full = true then
        L ≤ hist.length ∧ rb.idx < L ∧
          st.cells.drop rb.idx ++ st.cells.take rb.idx = (lastN L hist).map some
      else
        rb.idx = hist.length ∧ rb.idx < L ∧
          st.cells = hist.map some ++ List.replicate (L - rb.idx) none)

theorem RBStateOk_append (L : Nat) (rs : List Nat) (hist : List Flat) (rb : RingBuffer)
    (a : Batch) (h0 : 0 < L) (hok : RBStateOk L rs hist rb) (hsh : a.rshape = rs) :
    RBStateOk L rs (hist ++ a.recs) (rb.append a).rb ∧ (rb.append a).raised = false := by
  obtain ⟨Len, dat, ful, ix⟩ := rb
  obtain ⟨hL, hrest⟩ := hok
  simp only at hL hrest
  subst hL
  by_cases hne : a.recs.length = 0
  · have hnil : a.recs = [] := List.length_eq_zero.mp hne
    unfold RingBuffer.append
    rw [if_pos hne, hnil, List.append_nil]
    exact ⟨⟨rfl, hrest⟩, rfl⟩
  · unfold RingBuffer.append
    rw [if_neg hne]
    cases dat with
    | none =>
      obtain ⟨hh, hf, hi⟩ := hrest
      subst hh
      subst hf
      subst hi
      rw [allocStore_none _ a rfl, List.nil_append]
      by_cases hlt : a.recs.length < Len
      · -- no wrap, no truncation
        have htr : truncBatch ⟨Len, none, false, 0⟩ a = a :=
          truncBatch_of_le _ a (by simpa using by omega)
        rw [htr]
        rw [appendWith_nowrap ⟨Len, some ⟨DType.float64, a.rshape, List.replicate Len none⟩, false, 0⟩
            ⟨DType.float64, a.rshape, List.replicate Len none⟩ a
            (by simp) rfl (by simpa using hlt)]
        refine ⟨⟨rfl, hsh, ?_, ?_⟩, rfl⟩
        · dsimp only
          simp only [List.length_append, List.length_map, List.length_take, List.length_drop,
            List.length_replicate, List.take_zero, List.length_nil]
          omega
        · dsimp only
          rw [if_neg (by simp : ¬ false = true)]
          refine ⟨by simp, by omega, ?_⟩
          simp [List.drop_replicate]
      · -- exact fill or oversize: wrap with l2 = 0
        have hdr : (truncBatch ⟨Len, none, false, 0⟩ a).recs = lastN Len a.recs := by
          rw [truncBatch_recs _ a (by simpa using h0)]
          simp only
          rw [min_eq_right (by omega)]
        have hdl : (truncBatch ⟨Len, none, false, 0⟩ a).recs.length = Len := by
          rw [hdr]; exact lastN_length_of_le _ _ (by omega)
        rw [appendWith_wrap ⟨Len, some ⟨DType.float64, a.rshape, List.replicate Len none⟩, false, 0⟩
            ⟨DType.float64, a.rshape, List.replicate Len none⟩ (truncBatch ⟨Len, none, false, 0⟩ a)
            (by simp) (by rw [truncBatch_rshape]) (by simpa using h0)
            (by show _ ≤ Len; omega) (by show Len ≤ 0 + _; omega)]
        refine ⟨⟨rfl, hsh, ?_, ?_⟩, rfl⟩
        · dsimp only
          simp only [List.length_append, List.length_map, List.length_drop, List.length_take,
            List.length_replicate, List.take_zero, List.length_nil]
          omega
        · dsimp only
          rw [if_pos rfl]
          refine ⟨by omega, by omega, ?_⟩
          rw [show (truncBatch ⟨Len, none, false, 0⟩ a).recs.length - (Len - 0) = 0 from by omega]
          simp only [List.drop_zero, List.take_zero, List.append_nil, List.nil_append,
            Nat.sub_zero]
          rw [List.drop_eq_nil_of_le (le_of_eq hdl), List.take_of_length_le (le_of_eq hdl)]
          simp only [List.map_nil, List.nil_append]
          rw [hdr]
    | some st =>
      obtain ⟨hsts, hstl, hinv⟩ := hrest
      rw [allocStore_some _ a st rfl]
      have hash : a.rshape = st.rshape := hsh.trans hsts.symm
      cases ful with
      | false =>
        rw [if_neg (by simp : ¬ false = true)] at hinv
        obtain ⟨hix, hixlt, hcells⟩ := hinv
        have hhl : (hist.map some).length = ix := by rw [List.length_map, hix]
        by_cases hlt : ix + a.recs.length < Len
        · -- not full, no wrap, no truncation
          have htr : truncBatch ⟨Len, some st, false, ix⟩ a = a :=
            truncBatch_of_le _ a (by show a.recs.length ≤ Len; omega)
          rw [htr, appendWith_nowrap ⟨Len, some st, false, ix⟩ st a hstl hash
            (by show ix + a.recs.length < Len; exact hlt)]
          refine ⟨⟨rfl, hsts, ?_, ?_⟩, rfl⟩
          · dsimp only
            simp only [List.length_append, List.length_map, List.length_take, List.length_drop]
            omega
          · dsimp only
            rw [if_neg (by simp : ¬ false = true)]
            refine ⟨by simp only [List.length_append]; omega, by omega, ?_⟩
            rw [hcells, List.take_left' hhl, List.drop_append_eq_append_drop,
              List.drop_eq_nil_of_le (by rw [hhl]; omega), List.drop_replicate,
              List.map_append, List.nil_append]
            rw [show Len - ix - (ix + a.recs.length - (List.map some hist).length) =
              Len - (ix + a.recs.length) from by omega]
        · -- not full, wrap
          have hdl : (truncBatch ⟨Len, some st, false, ix⟩ a).recs.length =
              min a.recs.length Len :=
            truncBatch_length _ a (by show 0 < Len; omega)
          have hdr : (truncBatch ⟨Len, some st, false, ix⟩ a).recs =
              lastN (min a.recs.length Len) a.recs :=
            truncBatch_recs _ a (by show 0 < Len; omega)
          rw [appendWith_wrap ⟨Len, some st, false, ix⟩ st (truncBatch ⟨Len, some st, false, ix⟩ a)
            hstl (by rw [truncBatch_rshape]; exact hash) (by show ix < Len; omega)
            (by show _ ≤ Len; omega) (by show Len ≤ ix + _; omega)]
          refine ⟨⟨rfl, hsts, ?_, ?_⟩, rfl⟩
          · dsimp only
            simp only [List.length_append, List.length_map, List.length_take, List.length_drop]
            omega
          · dsimp only
            rw [if_pos rfl]
            refine ⟨by simp only [List.length_append]; omega, by omega, ?_⟩
            have hAlen : (((truncBatch ⟨Len, some st, false, ix⟩ a).recs.drop (Len - ix)).map
                some).length = (truncBatch ⟨Len, some st, false, ix⟩ a).recs.length -
                  (Len - ix) := by
              simp only [List.length_map, List.length_drop]
            rw [List.drop_left' hAlen, List.take_left' hAlen]
            rw [hcells, List.take_left' hhl]
            rw [List.drop_append_eq_append_drop]
            rw [show (truncBatch ⟨Len, some st, false, ix⟩ a).recs.length - (Len - ix) -
              (hist.map some).length = 0 from by rw [hhl]; omega, List.drop_zero]
            rw [← List.map_drop, ← List.map_append, ← List.map_append, List.append_assoc,
              List.take_append_drop]
            congr 1
            rw [hdl, hdr]
            unfold lastN
            rw [List.drop_append_eq_append_drop, List.length_append]
            by_cases htrunc : a.recs.length ≤ Len
            · rw [show a.recs.length - min a.recs.length Len = 0 from by omega, List.drop_zero,
                show hist.length + a.recs.length - Len - hist.length = 0 from by omega,
                List.drop_zero]
              congr 2
              omega
            · rw [List.drop_eq_nil_of_le
                  (show hist.length ≤ min a.recs.length Len - (Len - ix) from by omega),
                List.drop_eq_nil_of_le
                  (show hist.length ≤ hist.length + a.recs.length - Len from by omega),
                List.nil_append, List.nil_append]
              congr 1
              omega
      | true =>
        rw [if_pos rfl] at hinv
        obtain ⟨hfh, hixlt, hrot⟩ := hinv
        by_cases hlt : ix + a.recs.length < Len
        · -- full, no wrap, no truncation
          have htr : truncBatch ⟨Len, some st, true, ix⟩ a = a :=
            truncBatch_of_le _ a (by show a.recs.length ≤ Len; omega)
          rw [htr, appendWith_nowrap ⟨Len, some st, true, ix⟩ st a hstl hash
            (by show ix + a.recs.length < Len; exact hlt)]
          refine ⟨⟨rfl, hsts, ?_, ?_⟩, rfl⟩
          · dsimp only
            simp only [List.length_append, List.length_map, List.length_take, List.length_drop]
            omega
          · dsimp only
            rw [if_pos rfl]
            refine ⟨by simp only [List.length_append]; omega, by omega, ?_⟩
            have hPlen : (List.take ix st.cells ++ List.map some a.recs).length =
                ix + a.recs.length := by
              simp only [List.length_append, List.length_map, List.length_take]
              omega
            rw [List.drop_left' hPlen, List.take_left' hPlen]
            have hkey : List.drop (ix + a.recs.length) st.cells ++ List.take ix st.cells =
                ((lastN Len hist).drop a.recs.length).map some := by
              have h1 := congrArg (List.drop a.recs.length) hrot
              rw [List.drop_append_eq_append_drop,
                show a.recs.length - (st.cells.drop ix).length = 0 from by
                  rw [List.length_drop]; omega,
                List.drop_zero, List.drop_drop, ← List.map_drop] at h1
              exact h1
            rw [← List.append_assoc, hkey, ← List.map_append]
            congr 1
            unfold lastN
            rw [List.drop_drop, List.drop_append_eq_append_drop, List.length_append]
            rw [show hist.length + a.recs.length - Len - hist.length = 0 from by omega,
              List.drop_zero]
            congr 2
            omega
        · -- full, wrap
          have hdl : (truncBatch ⟨Len, some st, true, ix⟩ a).recs.length =
              min a.recs.length Len :=
            truncBatch_length _ a (by show 0 < Len; omega)
          have hdr : (truncBatch ⟨Len, some st, true, ix⟩ a).recs =
              lastN (min a.recs.length Len) a.recs :=
            truncBatch_recs _ a (by show 0 < Len; omega)
          rw [appendWith_wrap ⟨Len, some st, true, ix⟩ st (truncBatch ⟨Len, some st, true, ix⟩ a)
            hstl (by rw [truncBatch_rshape]; exact hash) (by show ix < Len; omega)
            (by show _ ≤ Len; omega) (by show Len ≤ ix + _; omega)]
          refine ⟨⟨rfl, hsts, ?_, ?_⟩, rfl⟩
          · dsimp only
            simp only [List.length_append, List.length_map, List.length_take, List.length_drop]
            omega
          · dsimp only
            rw [if_pos rfl]
            refine ⟨by simp only [List.length_append]; omega, by omega, ?_⟩
            have hAlen : (((truncBatch ⟨Len, some st, true, ix⟩ a).recs.drop (Len - ix)).map
                some).length = (truncBatch ⟨Len, some st, true, ix⟩ a).recs.length -
                  (Len - ix) := by
              simp only [List.length_map, List.length_drop]
            rw [List.drop_left' hAlen, List.take_left' hAlen]
            have hkey : (List.take ix st.cells).drop
                ((truncBatch ⟨Len, some st, true, ix⟩ a).recs.length - (Len - ix)) =
                ((lastN Len hist).drop
                  (truncBatch ⟨Len, some st, true, ix⟩ a).recs.length).map some := by
              have h1 := congrArg
                (List.drop (truncBatch ⟨Len, some st, true, ix⟩ a).recs.length) hrot
              rw [List.drop_append_eq_append_drop,
                List.drop_eq_nil_of_le (by rw [List.length_drop]; omega),
                List.length_drop, hstl, List.nil_append, ← List.map_drop] at h1
              exact h1
            rw [List.drop_append_eq_append_drop,
              show (truncBatch ⟨Len, some st, true, ix⟩ a).recs.length - (Len - ix) -
                (List.take ix st.cells).length = 0 from by rw [List.length_take]; omega,
              List.drop_zero, hkey]
            rw [← List.map_append, ← List.map_append, List.append_assoc,
              List.take_append_drop]
            congr 1
            rw [hdl, hdr]
            unfold lastN
            rw [List.drop_drop, List.drop_append_eq_append_drop, List.length_append]
            by_cases htrunc : a.recs.length ≤ Len
            · rw [show a.recs.length - min a.recs.length Len = 0 from by omega, List.drop_zero,
                show hist.length + a.recs.length - Len - hist.length = 0 from by omega,
                List.drop_zero]
              congr 2
              omega
            · rw [List.drop_eq_nil_of_le (show hist.length ≤ hist.length - Len +
                  min a.recs.length Len from by omega),
                List.drop_eq_nil_of_le (show hist.length ≤ hist.length + a.recs.length - Len
                  from by omega), List.nil_append, List.nil_append]
              congr 1
              omega

theorem RBStateOk_init (L : Nat) (rs : List Nat) :
    RBStateOk L rs [] (RingBuffer.init L) :=
  ⟨rfl, rfl, rfl, rfl⟩

theorem RBStateOk_foldl (L : Nat) (rs : List Nat) (bs : List Batch) (h0 : 0 < L) :
    ∀ (rb : RingBuffer) (hist : List Flat), (∀ b ∈ bs, b.rshape = rs) →
      RBStateOk L rs hist rb →
      RBStateOk L rs (hist ++ (bs.map Batch.recs).flatten)
        (bs.foldl (fun rb b => (rb.append b).rb) rb) := by
  induction bs with
  | nil =>
    intro rb hist _ hok
    simpa using hok
  | cons b bs ih =>
    intro rb hist hsh hok
    simp only [List.map_cons, List.flatten_cons, List.foldl_cons]
    have step := RBStateOk_append L rs hist rb b h0 hok (hsh b (by simp))
    have h2 := ih ((rb.append b).rb) (hist ++ b.recs) (fun x hx => hsh x (by simp [hx])) step.1
    rw [List.append_assoc] at h2
    exact h2

theorem RBStateOk_get (L : Nat) (rs : List Nat) (hist : List Flat) (rb : RingBuffer)
    (hok : RBStateOk L rs hist rb) :
    rb.get.recs = (lastN (min hist.length L) hist).map some ∧
    rb.get.recs.length = (if rb.full = true then rb.length else rb.idx) := by
  obtain ⟨Len, dat, ful, ix⟩ := rb
  obtain ⟨hL, hrest⟩ := hok
  simp only at hL hrest
  subst hL
  cases dat with
  | none =>
    obtain ⟨hh, hf, hi⟩ := hrest
    subst hh
    subst hf
    subst hi
    unfold RingBuffer.get
    simp [lastN]
  | some st =>
    obtain ⟨hsts, hstl, hinv⟩ := hrest
    cases ful with
    | false =>
      rw [if_neg (by simp : ¬ false = true)] at hinv
      obtain ⟨hix, hixlt, hcells⟩ := hinv
      have hhl : (List.map some hist).length = ix := by rw [List.length_map, hix]
      unfold RingBuffer.get
      dsimp only
      rw [if_neg (by simp : ¬ false = true), if_neg (by simp : ¬ false = true)]
      constructor
      · rw [hcells, List.take_left' hhl, min_eq_left (by omega)]
        unfold lastN
        rw [Nat.sub_self, List.drop_zero]
      · rw [hcells, List.take_left' hhl, List.length_map]
        omega
    | true =>
      rw [if_pos rfl] at hinv
      obtain ⟨hfh, hixlt, hrot⟩ := hinv
      unfold RingBuffer.get
      dsimp only
      rw [if_pos rfl, if_pos rfl]
      constructor
      · rw [hrot, min_eq_right (by omega)]
      · rw [hrot, List.length_map]
        exact lastN_length_of_le _ _ (by omega)

/-- C1: for a buffer of positive capacity fed any sequence of
shape-consistent appends, `get()` returns the most recent
`min(total records appended, length)` records in chronological order, and
the returned record count is exactly `length` when the buffer is `full` and
exactly `idx` otherwise. -/
theorem c1_get_returns_chronological_window (L : Nat) (rs : List Nat) (bs : List Batch)
    (h0 : 0 < L) (hsh : ∀ b ∈ bs, b.rshape = rs) :
    (runAppends L bs).get.recs =
      (lastN (min (histOf bs).length L) (histOf bs)).map some ∧
    (runAppends L bs).get.recs.length =
      (if (runAppends L bs).full = true then (runAppends L bs).length
       else (runAppends L bs).idx) := by
  have hok : RBStateOk L rs (histOf bs) (runAppends L bs) := by
    have h := RBStateOk_foldl L rs bs h0 (RingBuffer.init L) [] hsh (RBStateOk_init L rs)
    rw [List.nil_append] at h
    exact h
  exact RBStateOk_get L rs (histOf bs) (runAppends L bs) hok

/-- C1 witness: on a buffer of capacity 5, appending `[1, 2, 3]` and then
`[4, 5, 6, 7]` wraps; `get()` returns the last five records `[3, 4, 5, 6, 7]`
in order, and the returned length equals the capacity since the buffer is
full. -/
theorem c1_get_returns_chronological_window_witness :
    ((runAppends 5 [⟨DType.int64, [], [[1], [2], [3]]⟩,
        ⟨DType.int64, [], [[4], [5], [6], [7]]⟩]).get.recs =
      (lastN (min (histOf [⟨DType.int64, [], [[1], [2], [3]]⟩,
          ⟨DType.int64, [], [[4], [5], [6], [7]]⟩]).length 5)
        (histOf [⟨DType.int64, [], [[1], [2], [3]]⟩,
          ⟨DType.int64, [], [[4], [5], [6], [7]]⟩])).map some ∧
      (runAppends 5 [⟨DType.int64, [], [[1], [2], [3]]⟩,
          ⟨DType.int64, [], [[4], [5], [6], [7]]⟩]).get.recs.length =
        (if (runAppends 5 [⟨DType.int64, [], [[1], [2], [3]]⟩,
              ⟨DType.int64, [], [[4], [5], [6], [7]]⟩]).full = true
         then (runAppends 5 [⟨DType.int64, [], [[1], [2], [3]]⟩,
              ⟨DType.int64, [], [[4], [5], [6], [7]]⟩]).length
         else (runAppends 5 [⟨DType.int64, [], [[1], [2], [3]]⟩,
              ⟨DType.int64, [], [[4], [5], [6], [7]]⟩]).idx)) ∧
    (runAppends 5 [⟨DType.int64, [], [[1], [2], [3]]⟩,
        ⟨DType.int64, [], [[4], [5], [6], [7]]⟩]).get.recs =
      [some [3], some [4], some [5], some [6], some [7]] :=
  ⟨c1_get_returns_chronological_window 5 [] [⟨DType.int64, [], [[1], [2], [3]]⟩,
      ⟨DType.int64, [], [[4], [5], [6], [7]]⟩] (by decide) (by decide),
    by decide⟩

end Wyrm
